import Mathlib

/-!
Verification of the environment-file configuration switcher
(`config_switcher.py`).

The program edits a flat `KEY=VALUE` text file.  We embed its text
processing shallowly: Python strings become `List Char` (`Str` below),
so that line splitting and joining are plain structural recursion.

The Python code matches lines with the regular expression `^KEY=.*$`
under `re.MULTILINE`.  For keys made only of letters, digits and
underscores (every key the program uses) this regex matches exactly the
physical lines that start with the literal text `KEY=`, and `re.sub`
replaces each such whole line.  The embedding below realizes that
semantics directly on the list of lines; theorems about arbitrary keys
carry a `plainKey` hypothesis recording that the key contains no
regex metacharacter (no `'\n'`, no `'='` — the characters that could
make the regex reading diverge from the line reading).
-/

/-- Python strings, embedded as lists of characters. -/
abbrev Str := List Char

/-- Split on `'\n'`, exactly like Python's `str.split("\n")` and like the
line structure `re.MULTILINE` imposes: `^` matches at the start and after
each newline, `$` before each newline and at the end.  The empty string
splits to `[[]]`; a trailing newline yields a trailing empty line. -/
def splitNl : Str → List Str
  | [] => [[]]
  | c :: cs =>
    if c = '\n' then [] :: splitNl cs
    else
      match splitNl cs with
      | [] => [[c]]
      | l :: ls => (c :: l) :: ls

/-- Join lines with `'\n'`, the inverse of `splitNl`. -/
def joinNl : List Str → Str
  | [] => []
  | [l] => l
  | l :: ls => l ++ '\n' :: joinNl ls

/-- A key is plain when it is free of newline and of `'='`: for such keys
the regex `^key=.*$` (re.MULTILINE) matches precisely the physical lines
that start with `key=`. -/
def plainKey (key : Str) : Bool :=
  key.all (fun c => c ≠ '\n' && c ≠ '=')

/-- The line pattern: `key` followed by the literal `'='`. -/
def keyEq (key : Str) : Str := key ++ ['=']

/-- Whether a line matches `^key=.*$`: it starts with `key=`. -/
def lineMatches (key line : Str) : Bool :=
  List.isPrefixOf (keyEq key) line

/-- Function `update_env_variable` from `config_switcher.py`:

    pattern = rf'^{key}=.*$'
    replacement = f'{key}={value}'
    if re.search(pattern, content, re.MULTILINE):
        content = re.sub(pattern, replacement, content, flags=re.MULTILINE)
    else:
        content += f'\n{replacement}'
    return content

`re.search` succeeds iff some line starts with `key=`; `re.sub` then
replaces every such whole line with `key=value`.  Otherwise the text
`'\n' ++ key=value` is appended (unconditionally — note the `'\n'` is
added even when the content is empty or already ends in a newline). -/
def update_env_variable (content key value : Str) : Str :=
  let replacement := key ++ '=' :: value
  if (splitNl content).any (fun l => lineMatches key l) then
    joinNl ((splitNl content).map (fun l => if lineMatches key l then replacement else l))
  else
    content ++ '\n' :: replacement

/-- The pure core of `apply_config`: fold `update_env_variable` over the
preset's entries in iteration order.

    for key, value in config.items():
        content = update_env_variable(content, key, value)
-/
def applyEntries (content : Str) (entries : List (Str × Str)) : Str :=
  entries.foldl (fun c kv => update_env_variable c kv.1 kv.2) content

/-- Python's default whitespace for `str.strip()` (the ASCII part; the
values handled here are ASCII). -/
def pySpace (c : Char) : Bool :=
  c = ' ' || c = '\t' || c = '\n' || c = '\r' || c = '\x0B' || c = '\x0C'

/-- Python's `str.strip()`: remove leading and trailing whitespace. -/
def strip (s : Str) : Str :=
  ((s.dropWhile pySpace).reverse.dropWhile pySpace).reverse

/-- Whether a line matches `^key=(.+)$` (re.MULTILINE): it starts with
`key=` and the rest of the line — capture group 1 — is non-empty. -/
def matchesWithValue (key line : Str) : Bool :=
  lineMatches key line && decide (key.length + 1 < line.length)

/-- The body of the loop of `check_required_keys` for one key:

    pattern = rf'^{key}=(.+)$'
    match = re.search(pattern, content, re.MULTILINE)
    if not match or not match.group(1).strip():
        missing_keys.append(key)

`re.search` returns the first matching line in order; the key is missing
when there is none or when its captured value strips to the empty
string. -/
def key_missing (content key : Str) : Bool :=
  match (splitNl content).find? (fun l => matchesWithValue key l) with
  | none => true
  | some l => (strip (l.drop (key.length + 1))).isEmpty

/-- Function `check_required_keys` from `config_switcher.py`, on the file content
and the preset's `required_keys` list: collect, in input order, the keys
the loop appends to `missing_keys`. -/
def check_required_keys (content : Str) (required : List Str) : List Str :=
  required.filter (fun key => key_missing content key)

/-- Modelled from the spec's words for claim C3 (not from the code): a
key is missing when "no line matches `KEY=VALUE` with a non-empty,
non-whitespace-only VALUE".  Kept separate from `key_missing` so the two
readings can be compared. -/
def key_missing_spec (content key : Str) : Bool :=
  !((splitNl content).any (fun l =>
      lineMatches key l && !(strip (l.drop (key.length + 1))).isEmpty))

/-- The credential check as claim C3's words describe it: the subsequence
of required keys that are `key_missing_spec`, in input order. -/
def check_required_keys_spec (content : Str) (required : List Str) : List Str :=
  required.filter (fun key => key_missing_spec content key)

/-- The value captured by the first line of the form `key=VALUE` with
non-empty `VALUE`, if any — an independent recursion over the lines,
used to state the first-match rule the code actually implements. -/
def firstAssignedValue (key : Str) : List Str → Option Str
  | [] => none
  | l :: ls =>
    if matchesWithValue key l then some (l.drop (key.length + 1))
    else firstAssignedValue key ls

/-- The first-match reading of the credential check: a key is missing
when no line assigns it a non-empty value, or when the first line that
does assigns a whitespace-only value. -/
def key_missing_first (content key : Str) : Bool :=
  match firstAssignedValue key (splitNl content) with
  | none => true
  | some v => (strip v).isEmpty

/-- The filesystem as the program sees it: the `.env` file and its
sibling `.env.backup`, each either absent (`none`) or holding text. -/
structure FS where
  env : Option Str
  backup : Option Str
  deriving DecidableEq

/-- Function `backup_env` from `config_switcher.py`: if `.env` exists, write its
exact content to `.env.backup` (overwriting any prior backup); if it
does not exist, do nothing. -/
def backup_env (fs : FS) : FS :=
  match fs.env with
  | some c => { fs with backup := some c }
  | none => fs

/-- Function `apply_config` from `config_switcher.py`: read `.env` (treating a
missing file as empty content), fold `update_env_variable` over the
preset's entries, and write the result back. -/
def apply_config (entries : List (Str × Str)) (fs : FS) : FS :=
  let content := match fs.env with
    | none => []
    | some c => c
  { fs with env := some (applyEntries content entries) }

/-- The mutation sequence of `main` once a preset is chosen: `backup_env()`
runs first, then `apply_config(...)`. -/
def switch_config (entries : List (Str × Str)) (fs : FS) : FS :=
  apply_config entries (backup_env fs)

/-- Early return of `check_required_keys`: when `.env` does not exist the
function returns `[]` before reading anything. -/
def check_required_keys_fs (fs : FS) (required : List Str) : List Str :=
  match fs.env with
  | none => []
  | some c => check_required_keys c required

/-- One entry of the preset catalog of `get_configurations`. -/
structure Preset where
  id : Str
  name : Str
  config : List (Str × Str)
  required_keys : List Str
  description : Str
  deriving DecidableEq

/-- The static preset catalog returned by `get_configurations` (the
description strings, irrelevant to every claim, are abbreviated). -/
def get_configurations : List Preset :=
  [ { id := "openrouter".toList
    , name := "OpenRouter (Latest Anthropic)".toList
    , config :=
        [ ("FAST_LLM".toList, "openrouter:anthropic/claude-3.5-haiku".toList)
        , ("SMART_LLM".toList, "openrouter:anthropic/claude-sonnet-4".toList)
        , ("STRATEGIC_LLM".toList, "openrouter:anthropic/claude-opus-4.1".toList)
        , ("OPENROUTER_LIMIT_RPS".toList, "2.0".toList) ]
    , required_keys := ["OPENROUTER_API_KEY".toList]
    , description := "Latest Anthropic models via OpenRouter".toList }
  , { id := "openrouter_budget".toList
    , name := "OpenRouter (Budget)".toList
    , config :=
        [ ("FAST_LLM".toList, "openrouter:anthropic/claude-3-haiku".toList)
        , ("SMART_LLM".toList, "openrouter:anthropic/claude-3.5-sonnet".toList)
        , ("STRATEGIC_LLM".toList, "openrouter:anthropic/claude-3.7-sonnet".toList)
        , ("OPENROUTER_LIMIT_RPS".toList, "1.0".toList) ]
    , required_keys := ["OPENROUTER_API_KEY".toList]
    , description := "Cost-optimized OpenRouter models".toList }
  , { id := "openrouter_premium".toList
    , name := "OpenRouter (Premium)".toList
    , config :=
        [ ("FAST_LLM".toList, "openrouter:anthropic/claude-sonnet-4".toList)
        , ("SMART_LLM".toList, "openrouter:anthropic/claude-opus-4".toList)
        , ("STRATEGIC_LLM".toList, "openrouter:anthropic/claude-opus-4.1".toList)
        , ("OPENROUTER_LIMIT_RPS".toList, "2.0".toList) ]
    , required_keys := ["OPENROUTER_API_KEY".toList]
    , description := "High-performance OpenRouter models".toList }
  , { id := "openai".toList
    , name := "OpenAI (Direct)".toList
    , config :=
        [ ("FAST_LLM".toList, "openai:gpt-4o-mini".toList)
        , ("SMART_LLM".toList, "openai:gpt-4o".toList)
        , ("STRATEGIC_LLM".toList, "openai:o1-mini".toList) ]
    , required_keys := ["OPENAI_API_KEY".toList]
    , description := "Direct OpenAI API access".toList }
  , { id := "ollama".toList
    , name := "Ollama (Local)".toList
    , config :=
        [ ("FAST_LLM".toList, "ollama:llama3".toList)
        , ("SMART_LLM".toList, "ollama:llama3".toList)
        , ("STRATEGIC_LLM".toList, "ollama:llama3".toList)
        , ("OLLAMA_BASE_URL".toList, "http://localhost:11434".toList) ]
    , required_keys := []
    , description := "Local Ollama models".toList }
  , { id := "anthropic".toList
    , name := "Anthropic (Direct)".toList
    , config :=
        [ ("FAST_LLM".toList, "anthropic:claude-3-haiku-20240307".toList)
        , ("SMART_LLM".toList, "anthropic:claude-3-5-sonnet-20241022".toList)
        , ("STRATEGIC_LLM".toList, "anthropic:claude-3-opus-20240229".toList) ]
    , required_keys := ["ANTHROPIC_API_KEY".toList]
    , description := "Direct Anthropic API access".toList } ]

/-- Well-formedness of a preset's entry list, satisfied by every preset
in the catalog: keys are plain (no `'\n'`, no `'='`, so the regex and
the line reading agree), values contain no newline, and keys are
pairwise distinct. -/
def goodEntries (entries : List (Str × Str)) : Bool :=
  entries.all (fun kv => plainKey kv.1 && kv.2.all (fun c => c ≠ '\n'))
    && (entries.map Prod.fst).Nodup

/-- Key `key` is settled to `value` in `content`: every line that starts
with `key=` reads exactly `key=value`, and at least one line does. -/
def keySet (content key value : Str) : Prop :=
  (∀ l ∈ splitNl content, lineMatches key l = true → l = key ++ '=' :: value)
    ∧ (∃ l ∈ splitNl content, lineMatches key l = true)

/-! ### Lemmas about line splitting and joining -/

theorem splitNl_nil : splitNl [] = [[]] := rfl

theorem splitNl_cons_newline (cs : Str) : splitNl ('\n' :: cs) = [] :: splitNl cs := by
  simp [splitNl]

theorem splitNl_cons_other {c : Char} (hc : c ≠ '\n') (cs : Str) {l : Str}
    {ls : List Str} (hs : splitNl cs = l :: ls) :
    splitNl (c :: cs) = (c :: l) :: ls := by
  simp [splitNl, hc, hs]

theorem splitNl_ne_nil : ∀ s : Str, splitNl s ≠ []
  | [] => by simp [splitNl]
  | c :: cs => by
    by_cases hc : c = '\n'
    · subst hc
      rw [splitNl_cons_newline]
      simp
    · cases hs : splitNl cs with
      | nil => exact absurd hs (splitNl_ne_nil cs)
      | cons l ls =>
        rw [splitNl_cons_other hc cs hs]
        simp

theorem joinNl_cons (l : Str) (ls : List Str) (h : ls ≠ []) :
    joinNl (l :: ls) = l ++ '\n' :: joinNl ls := by
  cases ls with
  | nil => exact absurd rfl h
  | cons a as => rfl

theorem joinNl_splitNl : ∀ s : Str, joinNl (splitNl s) = s
  | [] => rfl
  | c :: cs => by
    have ih := joinNl_splitNl cs
    by_cases hc : c = '\n'
    · subst hc
      rw [splitNl_cons_newline, joinNl_cons _ _ (splitNl_ne_nil cs), ih]
      rfl
    · cases hs : splitNl cs with
      | nil => exact absurd hs (splitNl_ne_nil cs)
      | cons l ls =>
        rw [splitNl_cons_other hc cs hs]
        rw [hs] at ih
        cases ls with
        | nil =>
          simp only [joinNl] at ih ⊢
          rw [ih]
        | cons a as =>
          simp only [joinNl] at ih ⊢
          rw [List.cons_append, ih]

theorem no_newline_of_mem_splitNl :
    ∀ s : Str, ∀ l ∈ splitNl s, '\n' ∉ l
  | [], l, hl => by
    rw [splitNl_nil] at hl
    simp at hl
    simp [hl]
  | c :: cs, l, hl => by
    have ih := no_newline_of_mem_splitNl cs
    by_cases hc : c = '\n'
    · subst hc
      rw [splitNl_cons_newline] at hl
      rcases List.mem_cons.mp hl with rfl | hl
      · simp
      · exact ih l hl
    · cases hs : splitNl cs with
      | nil => exact absurd hs (splitNl_ne_nil cs)
      | cons m ms =>
        rw [splitNl_cons_other hc cs hs] at hl
        rcases List.mem_cons.mp hl with rfl | hl
        · intro hmem
          rcases List.mem_cons.mp hmem with rfl | hmem
          · exact hc rfl
          · exact ih m (hs ▸ List.mem_cons_self m ms) hmem
        · exact ih l (hs ▸ List.mem_cons_of_mem m hl)

theorem splitNl_no_newline : ∀ s : Str, '\n' ∉ s → splitNl s = [s]
  | [], _ => rfl
  | c :: cs, h => by
    have hc : c ≠ '\n' := fun hc => h (hc ▸ List.mem_cons_self c cs)
    have ih := splitNl_no_newline cs (fun hm => h (List.mem_cons_of_mem c hm))
    exact splitNl_cons_other hc cs ih

theorem splitNl_append_newline :
    ∀ a b : Str, splitNl (a ++ '\n' :: b) = splitNl a ++ splitNl b
  | [], b => by
    rw [List.nil_append, splitNl_cons_newline, splitNl_nil]
    rfl
  | c :: cs, b => by
    have ih := splitNl_append_newline cs b
    by_cases hc : c = '\n'
    · subst hc
      rw [List.cons_append, splitNl_cons_newline, splitNl_cons_newline, ih]
      rfl
    · cases hs : splitNl cs with
      | nil => exact absurd hs (splitNl_ne_nil cs)
      | cons m ms =>
        have hsplit : splitNl (cs ++ '\n' :: b) = m :: (ms ++ splitNl b) := by
          rw [ih, hs]
          rfl
        rw [List.cons_append, splitNl_cons_other hc _ hsplit,
          splitNl_cons_other hc cs hs]
        rfl

theorem splitNl_joinNl :
    ∀ ls : List Str, ls ≠ [] → (∀ l ∈ ls, '\n' ∉ l) → splitNl (joinNl ls) = ls
  | [], h, _ => absurd rfl h
  | [l], _, h2 => by
    simp only [joinNl]
    exact splitNl_no_newline l (h2 l (List.mem_singleton.mpr rfl))
  | l :: a :: as, _, h2 => by
    have ih := splitNl_joinNl (a :: as) (by simp)
      (fun m hm => h2 m (List.mem_cons_of_mem l hm))
    simp only [joinNl]
    rw [splitNl_append_newline, ih,
      splitNl_no_newline l (h2 l (List.mem_cons_self l (a :: as)))]
    rfl

/-! ### Lemmas about line matching -/

theorem isPrefixOf_self_append : ∀ p t : Str, List.isPrefixOf p (p ++ t) = true := by
  intro p t
  induction p with
  | nil => simp [List.isPrefixOf]
  | cons c cs ih => simp [List.isPrefixOf, ih]

theorem lineMatches_replacement (key v : Str) :
    lineMatches key (key ++ '=' :: v) = true := by
  have h : key ++ '=' :: v = keyEq key ++ v := by simp [keyEq]
  rw [lineMatches, h]
  exact isPrefixOf_self_append _ _

theorem plainKey_tail {c : Char} {ks : Str} (h : plainKey (c :: ks) = true) :
    plainKey ks = true := by
  simp only [plainKey, List.all_cons, Bool.and_eq_true] at h
  exact h.2

theorem plainKey_head {c : Char} {ks : Str} (h : plainKey (c :: ks) = true) :
    c ≠ '=' := by
  simp only [plainKey, List.all_cons, Bool.and_eq_true, decide_eq_true_eq] at h
  exact h.1.2

/-- Anchored matching is injective on plain keys: if the line `k=v`
matches the pattern of `k'`, then `k'` is `k`. -/
theorem eq_of_lineMatches_replacement :
    ∀ k' k v : Str, plainKey k = true → plainKey k' = true →
      lineMatches k' (k ++ '=' :: v) = true → k' = k
  | [], [], _, _, _, _ => rfl
  | [], c :: ks, v, hk, _, h => by
    exfalso
    simp only [lineMatches, keyEq, List.nil_append, List.cons_append,
      List.isPrefixOf, Bool.and_eq_true, beq_iff_eq] at h
    exact plainKey_head hk h.1.symm
  | c' :: ks', [], v, _, hk', h => by
    exfalso
    simp only [lineMatches, keyEq, List.nil_append, List.cons_append,
      List.isPrefixOf, Bool.and_eq_true, beq_iff_eq] at h
    exact plainKey_head hk' h.1
  | c' :: ks', c :: ks, v, hk, hk', h => by
    simp only [lineMatches, keyEq, List.cons_append, List.isPrefixOf,
      Bool.and_eq_true, beq_iff_eq] at h
    obtain ⟨rfl, htail⟩ := h
    have htail' : lineMatches ks' (ks ++ '=' :: v) = true := htail
    have hrec := eq_of_lineMatches_replacement ks' ks v
      (plainKey_tail hk) (plainKey_tail hk') htail'
    rw [hrec]

theorem not_lineMatches_of_ne {k k' v : Str} (hk : plainKey k = true)
    (hk' : plainKey k' = true) (hne : k' ≠ k) :
    lineMatches k' (k ++ '=' :: v) = false := by
  by_cases h : lineMatches k' (k ++ '=' :: v) = true
  · exact absurd (eq_of_lineMatches_replacement k' k v hk hk' h) hne
  · simpa using h

theorem newline_not_mem_replacement {key value : Str} (hk : '\n' ∉ key)
    (hv : '\n' ∉ value) : '\n' ∉ key ++ '=' :: value := by
  intro hmem
  rcases List.mem_append.mp hmem with hmem | hmem
  · exact hk hmem
  · rcases List.mem_cons.mp hmem with heq | hmem
    · exact absurd heq.symm (by decide)
    · exact hv hmem

/-- A plain key contains no newline. -/
theorem no_newline_of_plainKey {key : Str} (hk : plainKey key = true) :
    '\n' ∉ key := by
  intro hmem
  simp only [plainKey, List.all_eq_true, Bool.and_eq_true, decide_eq_true_eq] at hk
  exact (hk '\n' hmem).1 rfl

/-! ### The shape of an upsert's result -/

/-- The line structure of `update_env_variable`: in the replace branch
every matching line becomes `key=value` in place; in the append branch
one line `key=value` is appended after all existing lines. -/
theorem update_env_variable_lines (content key value : Str)
    (hk : '\n' ∉ key) (hv : '\n' ∉ value) :
    splitNl (update_env_variable content key value) =
      if (splitNl content).any (fun l => lineMatches key l) then
        (splitNl content).map
          (fun l => if lineMatches key l then key ++ '=' :: value else l)
      else splitNl content ++ [key ++ '=' :: value] := by
  by_cases h : (splitNl content).any (fun l => lineMatches key l) = true
  · rw [if_pos h]
    simp only [update_env_variable]
    rw [if_pos h]
    apply splitNl_joinNl
    · intro hmap
      exact splitNl_ne_nil content (List.map_eq_nil_iff.mp hmap)
    · intro l hl
      rcases List.mem_map.mp hl with ⟨m, hm, rfl⟩
      by_cases hml : lineMatches key m = true
      · rw [if_pos hml]
        exact newline_not_mem_replacement hk hv
      · rw [if_neg hml]
        exact no_newline_of_mem_splitNl content m hm
  · rw [if_neg h]
    simp only [update_env_variable]
    rw [if_neg h]
    rw [splitNl_append_newline,
      splitNl_no_newline _ (newline_not_mem_replacement hk hv)]

/-- The append branch, at the level of raw text. -/
theorem update_env_variable_of_absent (content key value : Str)
    (h : (splitNl content).any (fun l => lineMatches key l) = false) :
    update_env_variable content key value
      = content ++ '\n' :: (key ++ '=' :: value) := by
  simp only [update_env_variable]
  rw [if_neg (by simp [h])]

/-! ### The settled-key invariant -/

theorem keySet_update_self (content key value : Str) (hk : '\n' ∉ key)
    (hv : '\n' ∉ value) :
    keySet (update_env_variable content key value) key value := by
  rw [keySet, update_env_variable_lines content key value hk hv]
  by_cases h : (splitNl content).any (fun l => lineMatches key l) = true
  · rw [if_pos h]
    constructor
    · intro l hl _
      rcases List.mem_map.mp hl with ⟨m, hm, rfl⟩
      by_cases hml : lineMatches key m = true
      · rw [if_pos hml]
      · rw [if_neg hml] at *
        exact absurd (by assumption) hml
    · rcases List.any_eq_true.mp h with ⟨m, hm, hml⟩
      refine ⟨key ++ '=' :: value, ?_, lineMatches_replacement key value⟩
      exact List.mem_map.mpr ⟨m, hm, by rw [if_pos hml]⟩
  · rw [if_neg h]
    constructor
    · intro l hl hml
      rcases List.mem_append.mp hl with hl | hl
      · exact absurd hml (by
          have := List.any_eq_false.mp (Bool.eq_false_iff.mpr h) l hl
          simpa using this)
      · exact List.mem_singleton.mp hl
    · exact ⟨key ++ '=' :: value,
        List.mem_append_right _ (List.mem_singleton.mpr rfl),
        lineMatches_replacement key value⟩

theorem keySet_update_other {content k v k' v' : Str} (hk : plainKey k = true)
    (hk' : plainKey k' = true) (hne : k' ≠ k) (hv' : '\n' ∉ v')
    (hset : keySet content k v) :
    keySet (update_env_variable content k' v') k v := by
  obtain ⟨hall, hex⟩ := hset
  rw [keySet, update_env_variable_lines content k' v' (no_newline_of_plainKey hk') hv']
  by_cases h : (splitNl content).any (fun l => lineMatches k' l) = true
  · rw [if_pos h]
    constructor
    · intro l hl hml
      rcases List.mem_map.mp hl with ⟨m, hm, rfl⟩
      by_cases hml' : lineMatches k' m = true
      · rw [if_pos hml'] at hml ⊢
        exact absurd (eq_of_lineMatches_replacement k k' v' hk' hk hml)
          (fun he => hne he.symm)
      · rw [if_neg hml'] at hml ⊢
        exact hall m hm hml
    · rcases hex with ⟨m, hm, hml⟩
      have hmv : m = k ++ '=' :: v := hall m hm hml
      have hml' : lineMatches k' m = false := by
        rw [hmv]
        exact not_lineMatches_of_ne hk hk' hne
      exact ⟨m, List.mem_map.mpr ⟨m, hm, by rw [if_neg (by simp [hml'])]⟩, hml⟩
  · rw [if_neg h]
    constructor
    · intro l hl hml
      rcases List.mem_append.mp hl with hl | hl
      · exact hall l hl hml
      · rw [List.mem_singleton.mp hl] at hml
        exact absurd (eq_of_lineMatches_replacement k k' v' hk' hk hml)
          (fun he => hne he.symm)
    · rcases hex with ⟨m, hm, hml⟩
      exact ⟨m, List.mem_append_left _ hm, hml⟩

theorem update_env_variable_of_keySet {content key value : Str}
    (hset : keySet content key value) :
    update_env_variable content key value = content := by
  obtain ⟨hall, hex⟩ := hset
  have hany : (splitNl content).any (fun l => lineMatches key l) = true := by
    rcases hex with ⟨m, hm, hml⟩
    exact List.any_eq_true.mpr ⟨m, hm, hml⟩
  simp only [update_env_variable]
  rw [if_pos hany]
  have hmap : (splitNl content).map
      (fun l => if lineMatches key l then key ++ '=' :: value else l)
        = (splitNl content).map id := by
    apply List.map_congr_left
    intro l hl
    by_cases hml : lineMatches key l = true
    · rw [if_pos hml, id, hall l hl hml]
    · rw [if_neg hml, id]
  rw [hmap, List.map_id, joinNl_splitNl]

/-! ### Folding a preset's entries -/

theorem applyEntries_nil (content : Str) : applyEntries content [] = content := rfl

theorem applyEntries_cons (content : Str) (kv : Str × Str)
    (rest : List (Str × Str)) :
    applyEntries content (kv :: rest)
      = applyEntries (update_env_variable content kv.1 kv.2) rest := rfl

theorem keySet_applyEntries_of_ne {k v : Str} (hk : plainKey k = true) :
    ∀ (entries : List (Str × Str)) (content : Str),
      (∀ kv ∈ entries, plainKey kv.1 = true ∧ '\n' ∉ kv.2 ∧ kv.1 ≠ k) →
      keySet content k v → keySet (applyEntries content entries) k v
  | [], content, _, hset => hset
  | e :: rest, content, hents, hset => by
    rw [applyEntries_cons]
    have he := hents e (List.mem_cons_self e rest)
    exact keySet_applyEntries_of_ne hk rest _
      (fun kv hkv => hents kv (List.mem_cons_of_mem e hkv))
      (keySet_update_other hk he.1 he.2.2 he.2.1 hset)

theorem keySet_applyEntries_self :
    ∀ (entries : List (Str × Str)) (content : Str),
      (∀ kv ∈ entries, plainKey kv.1 = true ∧ '\n' ∉ kv.2) →
      (entries.map Prod.fst).Nodup →
      ∀ kv ∈ entries, keySet (applyEntries content entries) kv.1 kv.2
  | e :: rest, content, hents, hnodup, kv, hkv => by
    rw [applyEntries_cons]
    have hrest : ∀ kv ∈ rest, plainKey kv.1 = true ∧ '\n' ∉ kv.2 :=
      fun kv hkv => hents kv (List.mem_cons_of_mem e hkv)
    have hnodup' : (rest.map Prod.fst).Nodup := by
      rw [List.map_cons] at hnodup
      exact hnodup.of_cons
    rcases List.mem_cons.mp hkv with rfl | hkv
    · have he := hents kv (List.mem_cons_self kv rest)
      apply keySet_applyEntries_of_ne he.1 rest _
        (fun kv' hkv' => by
          refine ⟨(hrest kv' hkv').1, (hrest kv' hkv').2, ?_⟩
          intro heq
          have hnot : kv.1 ∉ rest.map Prod.fst := by
            rw [List.map_cons] at hnodup
            exact (List.nodup_cons.mp hnodup).1
          exact hnot (heq ▸ List.mem_map_of_mem Prod.fst hkv'))
      exact keySet_update_self content kv.1 kv.2 (no_newline_of_plainKey he.1) he.2
    · exact keySet_applyEntries_self rest _ hrest hnodup' kv hkv

theorem applyEntries_of_keySet :
    ∀ (entries : List (Str × Str)) (content : Str),
      (∀ kv ∈ entries, keySet content kv.1 kv.2) →
      applyEntries content entries = content
  | [], _, _ => rfl
  | e :: rest, content, hents => by
    rw [applyEntries_cons,
      update_env_variable_of_keySet (hents e (List.mem_cons_self e rest))]
    exact applyEntries_of_keySet rest content
      (fun kv hkv => hents kv (List.mem_cons_of_mem e hkv))

theorem goodEntries_unpack {entries : List (Str × Str)}
    (h : goodEntries entries = true) :
    (∀ kv ∈ entries, plainKey kv.1 = true ∧ '\n' ∉ kv.2)
      ∧ (entries.map Prod.fst).Nodup := by
  simp only [goodEntries, Bool.and_eq_true, List.all_eq_true,
    decide_eq_true_eq] at h
  refine ⟨fun kv hkv => ⟨(h.1 kv hkv).1, ?_⟩, h.2⟩
  intro hmem
  have := (h.1 kv hkv).2
  simp only [List.all_eq_true, decide_eq_true_eq] at this
  exact this '\n' hmem rfl

/-- The idempotence core: applying a well-formed entry list twice is the
same as applying it once, over any starting content. -/
theorem applyEntries_idem (entries : List (Str × Str)) (content : Str)
    (hgood : goodEntries entries = true) :
    applyEntries (applyEntries content entries) entries
      = applyEntries content entries := by
  obtain ⟨hents, hnodup⟩ := goodEntries_unpack hgood
  exact applyEntries_of_keySet entries _
    (keySet_applyEntries_self entries content hents hnodup)

/-! ### Counting, appending in order, and first-match lemmas -/

theorem countP_map_of_preserve {α : Type} (p : α → Bool) (f : α → α) :
    ∀ l : List α, (∀ a ∈ l, p (f a) = p a) →
      (l.map f).countP p = l.countP p
  | [], _ => rfl
  | a :: as, h => by
    have ih := countP_map_of_preserve p f as
      (fun x hx => h x (List.mem_cons_of_mem a hx))
    simp only [List.map_cons, List.countP_cons, ih,
      h a (List.mem_cons_self a as)]

theorem applyEntries_append_absent :
    ∀ (entries : List (Str × Str)) (content : Str),
      (∀ kv ∈ entries, plainKey kv.1 = true ∧ '\n' ∉ kv.2) →
      (entries.map Prod.fst).Nodup →
      (∀ kv ∈ entries,
        (splitNl content).any (fun l => lineMatches kv.1 l) = false) →
      applyEntries content entries
        = content
            ++ (entries.map (fun kv => '\n' :: (kv.1 ++ '=' :: kv.2))).flatten
  | [], content, _, _, _ => by simp [applyEntries_nil]
  | e :: rest, content, hents, hnodup, habs => by
    have he := hents e (List.mem_cons_self e rest)
    rw [applyEntries_cons, update_env_variable_of_absent content e.1 e.2
      (habs e (List.mem_cons_self e rest))]
    have hstep : splitNl (content ++ '\n' :: (e.1 ++ '=' :: e.2))
        = splitNl content ++ [e.1 ++ '=' :: e.2] := by
      rw [splitNl_append_newline, splitNl_no_newline _
        (newline_not_mem_replacement (no_newline_of_plainKey he.1) he.2)]
    have habs' : ∀ kv ∈ rest,
        (splitNl (content ++ '\n' :: (e.1 ++ '=' :: e.2))).any
          (fun l => lineMatches kv.1 l) = false := by
      intro kv hkv
      have hne : kv.1 ≠ e.1 := by
        intro heq
        have hnotmem : e.1 ∉ rest.map Prod.fst := by
          rw [List.map_cons] at hnodup
          exact (List.nodup_cons.mp hnodup).1
        exact hnotmem (heq ▸ List.mem_map_of_mem Prod.fst hkv)
      rw [hstep]
      simp only [List.any_append, List.any_cons, List.any_nil,
        Bool.or_eq_false_iff]
      exact ⟨habs kv (List.mem_cons_of_mem e hkv),
        by simp [not_lineMatches_of_ne he.1 (hents kv (List.mem_cons_of_mem e hkv)).1 hne]⟩
    rw [applyEntries_append_absent rest _
      (fun kv hkv => hents kv (List.mem_cons_of_mem e hkv))
      (by rw [List.map_cons] at hnodup; exact hnodup.of_cons) habs']
    simp [List.flatten, List.append_assoc]

theorem find?_eq_of_first {α : Type} (p : α → Bool) :
    ∀ (l : List α) (i : Nat) (hi : i < l.length),
      (∀ m (hm : m < l.length), m < i → p (l.get ⟨m, hm⟩) = false) →
      p (l.get ⟨i, hi⟩) = true →
      l.find? p = some (l.get ⟨i, hi⟩)
  | [], i, hi, _, _ => absurd hi (by simp)
  | a :: as, 0, _, _, hp => by
    simp only [List.get] at hp
    rw [List.find?_cons_of_pos _ hp]
    rfl
  | a :: as, i + 1, hi, hfirst, hp => by
    have ha : p a = false := hfirst 0 (by simp) (Nat.succ_pos i)
    rw [List.find?_cons_of_neg _ (by simp [ha])]
    simp only [List.get] at hp ⊢
    exact find?_eq_of_first p as i (Nat.lt_of_succ_lt_succ hi)
      (fun m hm hmi => hfirst (m + 1) (by simpa using Nat.succ_lt_succ hm)
        (Nat.succ_lt_succ hmi)) hp

theorem key_missing_match_eq_first (key : Str) :
    ∀ ls : List Str,
      (match ls.find? (fun l => matchesWithValue key l) with
        | none => true
        | some l => (strip (l.drop (key.length + 1))).isEmpty)
        = (match firstAssignedValue key ls with
            | none => true
            | some v => (strip v).isEmpty)
  | [] => rfl
  | l :: ls => by
    by_cases hl : matchesWithValue key l = true
    · rw [List.find?_cons_of_pos _ hl]
      simp only [firstAssignedValue, if_pos hl]
    · rw [List.find?_cons_of_neg _ (by simp [hl])]
      simp only [firstAssignedValue, if_neg hl]
      exact key_missing_match_eq_first key ls

theorem key_missing_eq_first (content key : Str) :
    key_missing content key = key_missing_first content key := by
  rw [key_missing, key_missing_first]
  exact key_missing_match_eq_first key (splitNl content)

/-! ### The claims -/

/-- Claim C1, counterexample: upserting the absent key `B` into `"A=1\n"`
yields `"A=1\n\nB=2"` — the code appends `'\n' ++ "B=2"` unconditionally,
so a blank line appears — and not the `"A=1\nB=2"` (with or without a
trailing newline) that the claim predicts. -/
theorem C1_counterexample :
    update_env_variable ("A=1\n".toList) ("B".toList) ("2".toList)
        = ("A=1\n\nB=2".toList)
      ∧ ("A=1\n\nB=2".toList : Str) ≠ ("A=1\nB=2".toList)
      ∧ ("A=1\n\nB=2".toList : Str) ≠ ("A=1\nB=2\n".toList) := by
  decide

/-- Claim C1 (amended): for every document and key assigned by no line,
upserting `K=V` appends the text `'\n' ++ K=V` unconditionally — one new
line `K=V` at the end, always preceded by a newline character (leaving
an empty line when the content already ends with a newline, and a
leading empty line when the content is empty) — and all prior lines are
unchanged and in order.  In particular `"A=1\n"` upserted with `B=2`
becomes `"A=1\n\nB=2"`. -/
theorem C1_amended (content key value : Str) (hk : '\n' ∉ key)
    (hv : '\n' ∉ value)
    (habs : (splitNl content).any (fun l => lineMatches key l) = false) :
    update_env_variable content key value
        = content ++ '\n' :: (key ++ '=' :: value)
      ∧ splitNl (update_env_variable content key value)
          = splitNl content ++ [key ++ '=' :: value] := by
  refine ⟨update_env_variable_of_absent content key value habs, ?_⟩
  rw [update_env_variable_lines content key value hk hv,
    if_neg (by simp [habs])]

/-- Claim C1, witness: the amended statement at the claim's own inputs. -/
theorem C1_amended_witness :
    update_env_variable ("A=1\n".toList) ("B".toList) ("2".toList)
        = ("A=1\n".toList) ++ '\n' :: ("B".toList ++ '=' :: "2".toList)
      ∧ splitNl (update_env_variable ("A=1\n".toList) ("B".toList) ("2".toList))
          = splitNl ("A=1\n".toList) ++ [("B".toList ++ '=' :: "2".toList)] :=
  C1_amended ("A=1\n".toList) ("B".toList) ("2".toList)
    (by decide) (by decide) (by decide)

/-- Claim C2: for every preset in the catalog and every initial content,
applying the preset's entries twice (as `apply_config` does, folding
`update_env_variable` over them) gives the same text as applying them
once. -/
theorem C2_preset_idempotent (p : Preset) (hp : p ∈ get_configurations)
    (content : Str) :
    applyEntries (applyEntries content p.config) p.config
      = applyEntries content p.config := by
  apply applyEntries_idem
  have hall : get_configurations.all (fun q => goodEntries q.config) = true := by
    decide
  exact List.all_eq_true.mp hall p hp

/-- Claim C2, witness: idempotence at the catalog's `openai` preset over
the empty document. -/
theorem C2_preset_idempotent_witness :
    applyEntries
        (applyEntries [] (Preset.config
          { id := "openai".toList
          , name := "OpenAI (Direct)".toList
          , config :=
              [ ("FAST_LLM".toList, "openai:gpt-4o-mini".toList)
              , ("SMART_LLM".toList, "openai:gpt-4o".toList)
              , ("STRATEGIC_LLM".toList, "openai:o1-mini".toList) ]
          , required_keys := ["OPENAI_API_KEY".toList]
          , description := "Direct OpenAI API access".toList }))
        (Preset.config
          { id := "openai".toList
          , name := "OpenAI (Direct)".toList
          , config :=
              [ ("FAST_LLM".toList, "openai:gpt-4o-mini".toList)
              , ("SMART_LLM".toList, "openai:gpt-4o".toList)
              , ("STRATEGIC_LLM".toList, "openai:o1-mini".toList) ]
          , required_keys := ["OPENAI_API_KEY".toList]
          , description := "Direct OpenAI API access".toList })
      = applyEntries [] (Preset.config
          { id := "openai".toList
          , name := "OpenAI (Direct)".toList
          , config :=
              [ ("FAST_LLM".toList, "openai:gpt-4o-mini".toList)
              , ("SMART_LLM".toList, "openai:gpt-4o".toList)
              , ("STRATEGIC_LLM".toList, "openai:o1-mini".toList) ]
          , required_keys := ["OPENAI_API_KEY".toList]
          , description := "Direct OpenAI API access".toList }) :=
  C2_preset_idempotent _ (by decide) []

/-- Claim C6: the mutation sequence of `main` runs `backup_env` strictly
before `apply_config`: when `.env` exists with content `c`, the final
backup holds exactly `c` — the pre-mutation content, not the edited one —
while `.env` holds the edited text; when `.env` does not exist the backup
step is a no-op (the backup file is left untouched) and no error
occurs. -/
theorem C6_backup_before_mutation (entries : List (Str × Str)) (fs : FS) :
    (∀ c, fs.env = some c →
        (switch_config entries fs).backup = some c
          ∧ (switch_config entries fs).env = some (applyEntries c entries))
      ∧ (fs.env = none →
          (switch_config entries fs).backup = fs.backup
            ∧ (switch_config entries fs).env
                = some (applyEntries [] entries)) := by
  obtain ⟨env, bak⟩ := fs
  cases env with
  | none =>
    refine ⟨fun c hc => absurd hc (by simp), fun _ => ⟨rfl, rfl⟩⟩
  | some c0 =>
    refine ⟨fun c hc => ?_, fun h => absurd h (by simp)⟩
    obtain rfl : c0 = c := by cases hc; rfl
    exact ⟨rfl, rfl⟩

/-- Claim C6, witness: the spec's backup-then-edit scenario — content
`"A=1\n"`, upsert of `B=2`; the backup holds exactly `"A=1\n"`. -/
theorem C6_backup_before_mutation_witness :
    (switch_config [("B".toList, "2".toList)]
        { env := some ("A=1\n".toList), backup := none }).backup
      = some ("A=1\n".toList) :=
  ((C6_backup_before_mutation [("B".toList, "2".toList)]
      { env := some ("A=1\n".toList), backup := none }).1
    ("A=1\n".toList) rfl).1

/-- Claim C7: a missing `.env` file is never fatal: `apply_config`
proceeds on it exactly as on an empty document, and the credential check
returns the empty list rather than an error. -/
theorem C7_missing_file_ok (entries : List (Str × Str)) (b : Option Str)
    (required : List Str) :
    apply_config entries { env := none, backup := b }
        = { env := some (applyEntries [] entries), backup := b }
      ∧ apply_config entries { env := none, backup := b }
          = apply_config entries { env := some [], backup := b }
      ∧ check_required_keys_fs { env := none, backup := b } required = [] := by
  refine ⟨?_, ?_, ?_⟩ <;> rfl

/-- Claim C3, counterexample: on a document whose first
`OPENROUTER_API_KEY` line has a whitespace-only value and whose second
has the non-empty value `abc123`, the claimed rule ("missing iff no line
has a non-empty, non-whitespace value") reports the key present, but
`check_required_keys` reports it missing: the code decides from the
first line with a non-empty value only. -/
theorem C3_counterexample :
    check_required_keys
        ("OPENROUTER_API_KEY= \nOPENROUTER_API_KEY=abc123".toList)
        ["OPENROUTER_API_KEY".toList]
      = ["OPENROUTER_API_KEY".toList]
    ∧ check_required_keys_spec
        ("OPENROUTER_API_KEY= \nOPENROUTER_API_KEY=abc123".toList)
        ["OPENROUTER_API_KEY".toList]
      = []
    ∧ (["OPENROUTER_API_KEY".toList] : List Str) ≠ [] := by
  decide

/-- Claim C3 (amended): the check returns, in input order, exactly the
subsequence of required keys for which the first line of the form
`KEY=VALUE` with non-empty `VALUE` either does not exist or carries a
whitespace-only `VALUE`; in particular a document reading
`OPENROUTER_API_KEY=` reports that key missing and one reading
`OPENROUTER_API_KEY=abc123` reports it present. -/
theorem C3_amended :
    (∀ (content : Str) (required : List Str),
        check_required_keys content required
          = required.filter (fun key => key_missing_first content key))
      ∧ check_required_keys ("OPENROUTER_API_KEY=".toList)
          ["OPENROUTER_API_KEY".toList] = ["OPENROUTER_API_KEY".toList]
      ∧ check_required_keys ("OPENROUTER_API_KEY=abc123".toList)
          ["OPENROUTER_API_KEY".toList] = [] := by
  refine ⟨fun content required => ?_, by decide, by decide⟩
  exact List.filter_congr (fun key _ => key_missing_eq_first content key)

/-- Claim C4, counterexample: upserting `A=3` into `"A=1\nA=2"` leaves
two lines assigning `A` (`re.sub` rewrites both; nothing deduplicates),
refuting "at most one line assigns K after an upsert". -/
theorem C4_counterexample :
    ¬ ((splitNl (update_env_variable ("A=1\nA=2".toList) ("A".toList)
          ("3".toList))).countP
        (fun l => lineMatches ("A".toList) l) ≤ 1) := by
  decide

/-- Claim C4 (amended): after an upsert of `K=V`, every line assigning
`K` reads exactly `K=V`; the number of lines assigning `K` is one if the
input had none and otherwise is unchanged (so "at most one" holds only
when the input already had at most one — duplicates all survive, all
rewritten); and keys absent from the input are appended at the end, in
preset-iteration order when a preset's entries are folded. -/
theorem C4_amended (content key value : Str) (hk : '\n' ∉ key)
    (hv : '\n' ∉ value) :
    (∀ l ∈ splitNl (update_env_variable content key value),
        lineMatches key l = true → l = key ++ '=' :: value)
      ∧ ((splitNl (update_env_variable content key value)).countP
            (fun l => lineMatches key l)
          = if (splitNl content).countP (fun l => lineMatches key l) = 0
            then 1
            else (splitNl content).countP (fun l => lineMatches key l))
      ∧ (∀ entries : List (Str × Str),
          (∀ kv ∈ entries, plainKey kv.1 = true ∧ '\n' ∉ kv.2) →
          (entries.map Prod.fst).Nodup →
          (∀ kv ∈ entries,
            (splitNl content).any (fun l => lineMatches kv.1 l) = false) →
          applyEntries content entries
            = content
                ++ (entries.map
                    (fun kv => '\n' :: (kv.1 ++ '=' :: kv.2))).flatten) := by
  refine ⟨(keySet_update_self content key value hk hv).1, ?_,
    fun entries h1 h2 h3 => applyEntries_append_absent entries content h1 h2 h3⟩
  rw [update_env_variable_lines content key value hk hv]
  by_cases h : (splitNl content).any (fun l => lineMatches key l) = true
  · rw [if_pos h]
    have hcount : ((splitNl content).map
          (fun l => if lineMatches key l then key ++ '=' :: value else l)).countP
            (fun l => lineMatches key l)
        = (splitNl content).countP (fun l => lineMatches key l) := by
      apply countP_map_of_preserve
      intro a _
      by_cases hma : lineMatches key a = true
      · rw [if_pos hma, hma, lineMatches_replacement]
      · rw [if_neg hma]
    rw [hcount, if_neg]
    rcases List.any_eq_true.mp h with ⟨a, ha, hpa⟩
    have hpos : 0 < (splitNl content).countP (fun l => lineMatches key l) :=
      List.countP_pos_iff.mpr ⟨a, ha, hpa⟩
    omega
  · rw [if_neg h]
    have hzero : (splitNl content).countP (fun l => lineMatches key l) = 0 := by
      apply List.countP_eq_zero.mpr
      intro a ha
      have := List.any_eq_false.mp (Bool.eq_false_iff.mpr h) a ha
      simpa using this
    rw [List.countP_append, hzero, if_pos rfl]
    simp [List.countP_cons, lineMatches_replacement]

/-- Claim C4, witness: the amended statement at content `"X=1"`, key `K`,
value `9`. -/
theorem C4_amended_witness :
    (∀ l ∈ splitNl (update_env_variable ("X=1".toList) ("K".toList)
          ("9".toList)),
        lineMatches ("K".toList) l = true → l = "K".toList ++ '=' :: "9".toList)
      ∧ ((splitNl (update_env_variable ("X=1".toList) ("K".toList)
              ("9".toList))).countP
            (fun l => lineMatches ("K".toList) l)
          = if (splitNl ("X=1".toList)).countP
                (fun l => lineMatches ("K".toList) l) = 0
            then 1
            else (splitNl ("X=1".toList)).countP
              (fun l => lineMatches ("K".toList) l))
      ∧ (∀ entries : List (Str × Str),
          (∀ kv ∈ entries, plainKey kv.1 = true ∧ '\n' ∉ kv.2) →
          (entries.map Prod.fst).Nodup →
          (∀ kv ∈ entries,
            (splitNl ("X=1".toList)).any
              (fun l => lineMatches kv.1 l) = false) →
          applyEntries ("X=1".toList) entries
            = ("X=1".toList)
                ++ (entries.map
                    (fun kv => '\n' :: (kv.1 ++ '=' :: kv.2))).flatten) :=
  C4_amended ("X=1".toList) ("K".toList) ("9".toList) (by decide) (by decide)

/-- Claim C5, counterexample: `"B=1\nB=2"` contains the line `B=1` at
position 0; upserting `B=9` rewrites both matching lines, giving
`"B=9\nB=9"` instead of the claimed `"B=9\nB=2"`. -/
theorem C5_counterexample :
    update_env_variable ("B=1\nB=2".toList) ("B".toList) ("9".toList)
        = ("B=9\nB=9".toList)
      ∧ ("B=9\nB=9".toList : Str) ≠ ("B=9\nB=2".toList) := by
  decide

/-- Claim C5 (amended): when position `i` holds the only line of the
document assigning `K`, upserting `K=V` replaces that line in place —
the result's lines are the input's with position `i` set to `K=V` and
every other line byte-for-byte unchanged in the same order. -/
theorem C5_amended (content key value : Str) (hk : '\n' ∉ key)
    (hv : '\n' ∉ value) (i : Nat) (hi : i < (splitNl content).length)
    (hm : lineMatches key ((splitNl content).get ⟨i, hi⟩) = true)
    (huniq : ∀ j (hj : j < (splitNl content).length), j ≠ i →
        lineMatches key ((splitNl content).get ⟨j, hj⟩) = false) :
    splitNl (update_env_variable content key value)
      = (splitNl content).set i (key ++ '=' :: value) := by
  rw [update_env_variable_lines content key value hk hv]
  have hany : (splitNl content).any (fun l => lineMatches key l) = true :=
    List.any_eq_true.mpr ⟨_, List.get_mem _ i hi, hm⟩
  rw [if_pos hany]
  apply List.ext_getElem?
  intro j
  by_cases hj : j < (splitNl content).length
  · rw [List.getElem?_map, List.getElem?_eq_getElem hj]
    by_cases hji : j = i
    · subst hji
      rw [List.getElem?_set_self hj]
      have hm' : lineMatches key (splitNl content)[j] = true := by
        simpa using hm
      simp [hm']
    · rw [List.getElem?_set_ne (fun h => hji h.symm),
        List.getElem?_eq_getElem hj]
      have hm' : lineMatches key (splitNl content)[j] = false := by
        simpa using huniq j hj hji
      simp [hm']
  · rw [List.getElem?_eq_none (by simpa using hj),
      List.getElem?_eq_none (by simpa using hj)]

/-- Claim C5, witness: the amended statement on `"A=1\nB=2"`, replacing
the unique `B` line at position 1. -/
theorem C5_amended_witness :
    splitNl (update_env_variable ("A=1\nB=2".toList) ("B".toList)
        ("7".toList))
      = (splitNl ("A=1\nB=2".toList)).set 1 ("B".toList ++ '=' :: "7".toList) :=
  C5_amended ("A=1\nB=2".toList) ("B".toList) ("7".toList)
    (by decide) (by decide) 1 (by decide) (by decide) (by decide)

/-- Claim C8: matching is anchored per physical line — a line is
rewritten only when it begins with `K=` at the very start of the line,
so any line not of that shape (the key inside a comment, preceded by
other characters, or as a proper prefix of a longer key) survives the
upsert unchanged and at its position.  The extra conjuncts record the
three named near-miss shapes concretely. -/
theorem C8_anchored_matching (content key value : Str) (hk : '\n' ∉ key)
    (hv : '\n' ∉ value) (i : Nat) (hi : i < (splitNl content).length)
    (hnm : lineMatches key ((splitNl content).get ⟨i, hi⟩) = false) :
    (splitNl (update_env_variable content key value))[i]?
        = some ((splitNl content).get ⟨i, hi⟩)
      ∧ lineMatches ("KEY".toList) ("# KEY=1".toList) = false
      ∧ lineMatches ("KEY".toList) ("XKEY=1".toList) = false
      ∧ lineMatches ("KE".toList) ("KEY=1".toList) = false := by
  refine ⟨?_, by decide, by decide, by decide⟩
  rw [update_env_variable_lines content key value hk hv]
  by_cases h : (splitNl content).any (fun l => lineMatches key l) = true
  · rw [if_pos h, List.getElem?_map, List.getElem?_eq_getElem hi]
    have hnm' : lineMatches key (splitNl content)[i] = false := by
      simpa using hnm
    simp [hnm']
  · rw [if_neg h, List.getElem?_append, if_pos hi,
      List.getElem?_eq_getElem hi]
    simp

/-- Claim C8, witness: in `"A=1\nB=2"` upserted with `B=7`, the
non-matching line `A=1` at position 0 is untouched. -/
theorem C8_anchored_matching_witness :
    (splitNl (update_env_variable ("A=1\nB=2".toList) ("B".toList)
        ("7".toList)))[0]?
        = some ((splitNl ("A=1\nB=2".toList)).get ⟨0, by decide⟩)
      ∧ lineMatches ("KEY".toList) ("# KEY=1".toList) = false
      ∧ lineMatches ("KEY".toList) ("XKEY=1".toList) = false
      ∧ lineMatches ("KE".toList) ("KEY=1".toList) = false :=
  C8_anchored_matching ("A=1\nB=2".toList) ("B".toList) ("7".toList)
    (by decide) (by decide) 0 (by decide) (by decide)

/-- Claim C9 (implicit): when several lines assign the same key, an
upsert rewrites every one of them — each matching position carries
`K=V` afterwards, and the line count is unchanged, so all duplicates
remain present with the new value. -/
theorem C9_duplicates_all_replaced (content key value : Str)
    (hk : '\n' ∉ key) (hv : '\n' ∉ value) (i : Nat)
    (hi : i < (splitNl content).length)
    (hm : lineMatches key ((splitNl content).get ⟨i, hi⟩) = true) :
    (splitNl (update_env_variable content key value))[i]?
        = some (key ++ '=' :: value)
      ∧ (splitNl (update_env_variable content key value)).length
          = (splitNl content).length := by
  have hany : (splitNl content).any (fun l => lineMatches key l) = true :=
    List.any_eq_true.mpr ⟨_, List.get_mem _ i hi, hm⟩
  rw [update_env_variable_lines content key value hk hv, if_pos hany]
  constructor
  · rw [List.getElem?_map, List.getElem?_eq_getElem hi]
    have hm' : lineMatches key (splitNl content)[i] = true := by
      simpa using hm
    simp [hm']
  · exact List.length_map _ _

/-- Claim C9, witness: in `"A=1\nA=2"` upserted with `A=3`, the second
duplicate (position 1) also carries the new value, and both lines
remain. -/
theorem C9_duplicates_all_replaced_witness :
    (splitNl (update_env_variable ("A=1\nA=2".toList) ("A".toList)
        ("3".toList)))[1]?
        = some ("A".toList ++ '=' :: "3".toList)
      ∧ (splitNl (update_env_variable ("A=1\nA=2".toList) ("A".toList)
          ("3".toList))).length
          = (splitNl ("A=1\nA=2".toList)).length :=
  C9_duplicates_all_replaced ("A=1\nA=2".toList) ("A".toList) ("3".toList)
    (by decide) (by decide) 1 (by decide) (by decide)

/-- Claim C10 (implicit): the credential check is decided by the first
line whose value after `KEY=` is non-empty.  If that line's value is
whitespace-only the key is reported missing even when a later line
assigns a non-whitespace value; a line with a completely empty value
(`KEY=`) is not a match at all and is skipped in favour of any later
non-empty assignment (the closed conjuncts show both on `K=\nK=abc` and
`K= \nK=abc`). -/
theorem C10_first_nonempty_decides :
    (∀ (content key : Str) (i : Nat) (hi : i < (splitNl content).length),
        (∀ m (hm : m < (splitNl content).length), m < i →
            matchesWithValue key ((splitNl content).get ⟨m, hm⟩) = false) →
        matchesWithValue key ((splitNl content).get ⟨i, hi⟩) = true →
        strip (((splitNl content).get ⟨i, hi⟩).drop (key.length + 1)) = [] →
        (∃ j, ∃ hj : j < (splitNl content).length, i < j
            ∧ matchesWithValue key ((splitNl content).get ⟨j, hj⟩) = true
            ∧ strip (((splitNl content).get ⟨j, hj⟩).drop (key.length + 1))
                ≠ []) →
        key_missing content key = true)
      ∧ (∀ (content key : Str) (j : Nat) (hj : j < (splitNl content).length),
          (∀ m (hm : m < (splitNl content).length), m < j →
              matchesWithValue key ((splitNl content).get ⟨m, hm⟩) = false) →
          matchesWithValue key ((splitNl content).get ⟨j, hj⟩) = true →
          strip (((splitNl content).get ⟨j, hj⟩).drop (key.length + 1))
              ≠ [] →
          key_missing content key = false)
      ∧ key_missing ("K=\nK=abc".toList) ("K".toList) = false
      ∧ key_missing ("K= \nK=abc".toList) ("K".toList) = true := by
  refine ⟨?_, ?_, by decide, by decide⟩
  · intro content key i hi hfirst hmatch hstrip _
    simp only [key_missing]
    rw [find?_eq_of_first _ _ i hi hfirst hmatch]
    simpa using hstrip
  · intro content key j hj hfirst hmatch hstrip
    simp only [key_missing]
    rw [find?_eq_of_first _ _ j hj hfirst hmatch]
    simpa using hstrip

/-- Claim C10, witness: both first-match behaviours at concrete
documents — whitespace-only first value wins over a later good one, and
an empty-value line is skipped. -/
theorem C10_first_nonempty_decides_witness :
    key_missing ("OPENROUTER_API_KEY= \nOPENROUTER_API_KEY=abc123".toList)
        ("OPENROUTER_API_KEY".toList) = true
      ∧ key_missing ("A=\nA=ok".toList) ("A".toList) = false :=
  ⟨C10_first_nonempty_decides.1
      ("OPENROUTER_API_KEY= \nOPENROUTER_API_KEY=abc123".toList)
      ("OPENROUTER_API_KEY".toList) 0 (by decide) (by decide) (by decide)
      (by decide) ⟨1, by decide, by decide, by decide, by decide⟩,
    C10_first_nonempty_decides.2.1 ("A=\nA=ok".toList) ("A".toList) 1
      (by decide) (by decide) (by decide) (by decide)⟩
